import Mathlib

/-!
Verification of the Kalshi trading system's core components against its
design specification.  The Python sources are shallowly embedded: prices are
integers in 1/10000-dollar units (the 4-decimal fixed-point representation),
dictionaries are association lists, the order book's SortedDicts are
association lists kept strictly sorted in descending key order (so the head
plays the role of `keys()[-1]`), and raising an exception is modelled by an
`Option`/`Except` result paired with the mutated state (Python mutations
performed before a `raise` persist).
-/

namespace KalshiSpec

/-- Lookup in an association list, mirroring Python `dict.get` /
`SortedDict.__contains__` + indexing. -/
def dLookup {κ : Type} [DecidableEq κ] : List (κ × Int) → κ → Option Int
  | [], _ => none
  | (k', v) :: t, k => if k = k' then some v else dLookup t k

/-- Replace the value at a key, or append the binding at the end when the key
is absent (Python dict insertion-order semantics). -/
def dSet {κ : Type} [DecidableEq κ] : List (κ × Int) → κ → Int → List (κ × Int)
  | [], k, v => [(k, v)]
  | (k', v') :: t, k, v => if k = k' then (k, v) :: t else (k', v') :: dSet t k v

/-- Remove the binding for a key (Python `del d[k]` / `d.pop(k, 0)`). -/
def dErase {κ : Type} [DecidableEq κ] : List (κ × Int) → κ → List (κ × Int)
  | [], _ => []
  | (k', v') :: t, k => if k = k' then t else (k', v') :: dErase t k

/-! ## FixedPointDollars (src/market/FixedPointDollars.py)

A value is quantized to 4 decimals with `ROUND_DOWN` (toward zero).  We model
a `FixedPointDollars` value by its integer numerator in 1/10000-dollar units.
-/

/-- Decimal `quantize(0.0001, ROUND_DOWN)` of a rational, returned in
1/10000-dollar units: truncation toward zero of `q * 10000`. -/
def ratQuantDown (q : ℚ) : Int := if 0 ≤ q then ⌊q⌋ else ⌈q⌉

/-- `FixedPointDollars.__new__`: quantize an arbitrary numeric input. -/
def fpOfRat (q : ℚ) : Int := ratQuantDown (q * 10000)

/-- The rational value of a fixed-point amount. -/
def fpToRat (n : Int) : ℚ := (n : ℚ) / 10000

/-- `FixedPointDollars.complement`: `FixedPointDollars(1 - self)`. -/
def fpComplement (n : Int) : Int := fpOfRat (1 - fpToRat n)

/-- `FixedPointDollars.__add__`: exact Decimal addition then quantization. -/
def fpAdd (a b : Int) : Int := fpOfRat (fpToRat a + fpToRat b)

/-- The constant `ONE = FixedPointDollars('1')`. -/
def fpOne : Int := 10000

/-! ## OrderBook (src/core/market/OrderBook.py)

Each side is a `SortedDict[FixedPointDollars, int]`, embedded as an
association list strictly sorted by descending key; its head is the maximal
key, matching `keys()[-1]` / `items()[-1]` accesses in the source.
-/

/-- Insert or replace a binding keeping the strictly-descending key order. -/
def bookInsert : List (Int × Int) → Int → Int → List (Int × Int)
  | [], p, c => [(p, c)]
  | (k, v) :: t, p, c =>
    if k < p then (p, c) :: (k, v) :: t
    else if p = k then (p, c) :: t
    else (k, v) :: bookInsert t p c

/-- A side of the book is strictly sorted by descending price, so its head
is the unique maximal level. -/
def BookSorted (b : List (Int × Int)) : Prop :=
  List.Pairwise (fun x y : Int × Int => y.1 < x.1) b

/-- The state of `OrderBook` (src/core/market/OrderBook.py).  Prices are in
1/10000-dollar units; `ZERO = 0`, `ONE = 10000`, `MID_DEFAULT = 5000`. -/
structure OrderBook where
  timestamp : Option Int
  best_bid : Int
  bid_size : Int
  best_ask : Int
  ask_size : Int
  yes_book : List (Int × Int)
  no_book : List (Int × Int)
  mid_price : Int
  bid_ask_spread : Int
  seq_n : Option Int
deriving DecidableEq, Repr

/-- `OrderBook.__init__`. -/
def OrderBook.init : OrderBook :=
  { timestamp := none
    best_bid := 0
    bid_size := 0
    best_ask := 10000
    ask_size := 0
    yes_book := []
    no_book := []
    mid_price := 5000
    bid_ask_spread := 0
    seq_n := none }

/-- Division of a 4-decimal amount by two with `ROUND_DOWN` quantization
(truncation toward zero), as `FixedPointDollars.__truediv__` produces. -/
def fpHalfDown (n : Int) : Int := if 0 ≤ n then n / 2 else -((-n) / 2)

/-- `OrderBook.calc_mid_price`. -/
def calcMidPrice (ob : OrderBook) : Int :=
  if ob.best_ask < 10000 ∧ 0 < ob.best_bid then fpHalfDown (ob.best_bid + ob.best_ask)
  else if ob.best_ask < 10000 then ob.best_ask
  else if 0 < ob.best_bid then ob.best_bid
  else 5000

/-- `OrderBook.spread`. -/
def spreadFn (ob : OrderBook) : Int := ob.best_ask - ob.best_bid

/-- Recompute the cached `mid_price` and `bid_ask_spread`, as done at the end
of `_apply_snapshot` and `_apply_delta`. -/
def refreshDerived (ob : OrderBook) : OrderBook :=
  { ob with mid_price := calcMidPrice ob, bid_ask_spread := spreadFn ob }

/-- `OrderBook._find_new_best_bid`. -/
def findNewBestBid (ob : OrderBook) : OrderBook :=
  match ob.yes_book with
  | [] => { ob with best_bid := 0, bid_size := 0 }
  | (k, v) :: _ => { ob with best_bid := k, bid_size := v }

/-- `OrderBook._find_new_best_ask`. -/
def findNewBestAsk (ob : OrderBook) : OrderBook :=
  match ob.no_book with
  | [] => { ob with best_ask := 10000, ask_size := 0 }
  | (k, v) :: _ => { ob with best_ask := 10000 - k, ask_size := v }

inductive Side where
  | yes
  | no
deriving DecidableEq, Repr

/-- `OrderBookDeltaMsg` (src/core/client/KalshiWebsocketResponses.py), price
already converted to fixed-point units. -/
structure OrderBookDeltaMsg where
  side : Side
  price_dollars : Int
  delta : Int
  ts : Int
deriving DecidableEq, Repr

/-- `OrderBookSnapshotMsg`: `yes_dollars` / `no_dollars` level arrays as
(price, size) pairs in fixed-point units. -/
structure OrderBookSnapshotMsg where
  yes_dollars : List (Int × Int)
  no_dollars : List (Int × Int)
deriving DecidableEq, Repr

/-- Accumulate one snapshot level: `d[price] = d.get(price, 0) + size`. -/
def bookAddAgg (b : List (Int × Int)) (p c : Int) : List (Int × Int) :=
  bookInsert b p ((dLookup b p).getD 0 + c)

/-- Build one side of the book from a snapshot's level array, aggregating
duplicate prices by summation as `_apply_snapshot` does. -/
def bookOfPairs (pairs : List (Int × Int)) : List (Int × Int) :=
  pairs.foldl (fun b pc => bookAddAgg b pc.1 pc.2) []

/-- `OrderBook._apply_snapshot`. -/
def applySnapshot (ob : OrderBook) (seq : Int) (msg : OrderBookSnapshotMsg) : OrderBook :=
  let yb := bookOfPairs msg.yes_dollars
  let nb := bookOfPairs msg.no_dollars
  let ob :=
    { ob with
      seq_n := some seq
      yes_book := yb
      no_book := nb
      best_bid := match yb with | [] => 0 | (k, _) :: _ => k
      bid_size := match yb with | [] => 0 | (_, v) :: _ => v
      best_ask := match nb with | [] => 10000 | (k, _) :: _ => 10000 - k
      ask_size := match nb with | [] => 0 | (_, v) :: _ => v
      timestamp := none }
  refreshDerived ob

/-- The `if delta_msg.side == "yes"` block of `OrderBook._apply_delta`: add
`d` to the level at `p`, remove it when the count drops to zero or below
(rescanning for the best bid when the removed level was the cached best),
update the cached size when the best level changed, and promote a freshly
inserted level that beats the cached best. -/
def applyDeltaYes (ob : OrderBook) (p d : Int) : OrderBook :=
  match dLookup ob.yes_book p with
  | some c =>
    if c + d ≤ 0 then
      if p = ob.best_bid then findNewBestBid { ob with yes_book := dErase ob.yes_book p }
      else { ob with yes_book := dErase ob.yes_book p }
    else
      if p = ob.best_bid then
        { ob with yes_book := bookInsert ob.yes_book p (c + d), bid_size := c + d }
      else { ob with yes_book := bookInsert ob.yes_book p (c + d) }
  | none =>
    if 0 < d then
      if ob.best_bid < p then
        { ob with yes_book := bookInsert ob.yes_book p d, best_bid := p, bid_size := d }
      else { ob with yes_book := bookInsert ob.yes_book p d }
    else ob

/-- The `if delta_msg.side == "no"` block of `OrderBook._apply_delta`; the
cached ask is the complement of the maximal NO key, so comparisons go
through `price.complement`. -/
def applyDeltaNo (ob : OrderBook) (p d : Int) : OrderBook :=
  match dLookup ob.no_book p with
  | some c =>
    if c + d ≤ 0 then
      if 10000 - p = ob.best_ask then findNewBestAsk { ob with no_book := dErase ob.no_book p }
      else { ob with no_book := dErase ob.no_book p }
    else
      if 10000 - p = ob.best_ask then
        { ob with no_book := bookInsert ob.no_book p (c + d), ask_size := c + d }
      else { ob with no_book := bookInsert ob.no_book p (c + d) }
  | none =>
    if 0 < d then
      if 10000 - p < ob.best_ask then
        { ob with no_book := bookInsert ob.no_book p d, best_ask := 10000 - p, ask_size := d }
      else { ob with no_book := bookInsert ob.no_book p d }
    else ob

/-- `OrderBook._apply_delta`. -/
def applyDelta (ob : OrderBook) (seq : Int) (m : OrderBookDeltaMsg) : OrderBook :=
  let ob := { ob with seq_n := some seq }
  let ob :=
    match m.side with
    | Side.yes => applyDeltaYes ob m.price_dollars m.delta
    | Side.no => applyDeltaNo ob m.price_dollars m.delta
  let ob := { ob with timestamp := some m.ts }
  refreshDerived ob

/-- One order-book operation, as routed by `BinaryMarket.update`. -/
inductive BookOp where
  | snapshot (seq : Int) (msg : OrderBookSnapshotMsg)
  | delta (seq : Int) (msg : OrderBookDeltaMsg)
deriving DecidableEq, Repr

/-- Apply one operation to the book. -/
def obStep (ob : OrderBook) (op : BookOp) : OrderBook :=
  match op with
  | BookOp.snapshot seq msg => applySnapshot ob seq msg
  | BookOp.delta seq msg => applyDelta ob seq msg

/-- The book reached from the initial state by a list of operations. -/
def obRun (ops : List BookOp) : OrderBook :=
  ops.foldl obStep OrderBook.init

/-! ## PriceBuffer (src/market/PriceBuffer.py)

A fixed-capacity circular buffer; cells are `Option α` because Python
initializes the backing list with `None`. -/

structure PriceBuffer (α : Type) where
  buffer : List (Option α)
  capacity : Nat
  head : Nat
  size : Nat
deriving DecidableEq, Repr

/-- `PriceBuffer.__init__(max_size)`. -/
def PriceBuffer.empty (α : Type) (cap : Nat) : PriceBuffer α :=
  { buffer := List.replicate cap none, capacity := cap, head := 0, size := 0 }

/-- `PriceBuffer.add`. -/
def PriceBuffer.add (b : PriceBuffer α) (x : α) : PriceBuffer α :=
  let idx := (b.head + b.size) % b.capacity
  let buf := b.buffer.set idx (some x)
  if b.size < b.capacity then { b with buffer := buf, size := b.size + 1 }
  else { b with buffer := buf, head := (b.head + 1) % b.capacity }

/-- `PriceBuffer.__getitem__`; out-of-range indices raise `IndexError` in the
source, modelled as `none`. -/
def PriceBuffer.getItem (b : PriceBuffer α) (i : Nat) : Option α :=
  if i < b.size then b.buffer.getD ((b.head + i) % b.capacity) none else none

/-- `PriceBuffer.get_last_n`. -/
def PriceBuffer.getLastN (b : PriceBuffer α) (n : Nat) : List (Option α) :=
  let m := min n b.size
  (List.range' (b.size - m) m).map (fun i => b.getItem i)

/-- The buffer obtained by adding the elements of `xs`, oldest first, to a
fresh buffer of capacity `cap`. -/
def pbBuild (α : Type) (cap : Nat) (xs : List α) : PriceBuffer α :=
  xs.foldl PriceBuffer.add (PriceBuffer.empty α cap)

/-! ## Market-data ingestion (src/core/market/BinaryMarket.py and
src/core/client/KalshiWebsocket.py)

The combined state machine of `KalshiWebsocket.handle_msg` (orderbook
messages) and `BinaryMarket.update`.  `market.on_gap_callback` is wired to
`KalshiWebsocket.handle_gap`, whose `_rebuild_on_gap` sets the
`pending_snapshot` flag (the unsubscribe/subscribe round-trip is a network
effect outside the state).  The step result's boolean reports whether the
gap callback was invoked. -/

structure WSState where
  pending_snapshot : Bool
  orderbook : OrderBook
  price_window : PriceBuffer (Int × Int)
deriving DecidableEq, Repr

/-- An orderbook envelope after pydantic validation. -/
inductive Env where
  | snapshot (seq : Int) (msg : OrderBookSnapshotMsg)
  | delta (seq : Int) (msg : OrderBookDeltaMsg)
deriving DecidableEq, Repr

/-- One `handle_msg` call for an orderbook envelope: the snapshot branch
clears `pending_snapshot` and forwards to `BinaryMarket.update` (which clears
the price window and applies the snapshot); the delta branch drops the
envelope while `pending_snapshot` is set, otherwise `BinaryMarket.update`
enforces the sequence invariant, invoking the gap callback and returning
without applying when `seq_n` is set and differs from `seq - 1`. -/
def wsStep (s : WSState) (e : Env) : WSState × Bool :=
  match e with
  | Env.snapshot seq msg =>
    let s := { s with pending_snapshot := false }
    ({ s with
        orderbook := applySnapshot s.orderbook seq msg
        price_window := PriceBuffer.empty (Int × Int) s.price_window.capacity }, false)
  | Env.delta seq msg =>
    if s.pending_snapshot then (s, false)
    else
      match s.orderbook.seq_n with
      | some sp =>
        if seq ≠ sp + 1 then ({ s with pending_snapshot := true }, true)
        else
          let ob := applyDelta s.orderbook seq msg
          ({ s with
              orderbook := ob
              price_window := s.price_window.add (ob.mid_price, msg.ts) }, false)
      | none =>
        let ob := applyDelta s.orderbook seq msg
        ({ s with
            orderbook := ob
            price_window := s.price_window.add (ob.mid_price, msg.ts) }, false)

/-- Process a list of envelopes in order. -/
def wsRun (s : WSState) (es : List Env) : WSState :=
  es.foldl (fun s e => (wsStep s e).1) s

/-! ## Executor (src/core/executor/Executor.py)

Portfolio state.  `balance` amounts are rationals (the Python floats hold
dollar values obtained from integer cents).  Raising is modelled by an
`Option RiskErr` result next to the mutated state: Python field mutations
performed before a `raise` persist. -/

inductive RiskErr where
  | PositionLimitExceeded
  | BalanceLimitExceeded
deriving DecidableEq, Repr

/-- Log events emitted by the executor's sync helpers
(src/live_trading/RiskExceptions.py names the mismatch categories). -/
inductive LogEvent where
  | balanceLimitLog
  | balanceMismatchLog
  | inventoryLimitLog
  | positionMismatchLog
deriving DecidableEq, Repr

/-- `FillMsg` (the fields used by the executor); `ts` is in seconds. -/
structure FillMsg where
  order_id : String
  count : Int
  post_position : Int
  ts : Int
deriving DecidableEq, Repr

/-- The portfolio state of `Executor`. -/
structure ExecState where
  inventory : Int
  max_inventory : Int
  balance : ℚ
  minimum_balance : ℚ
  max_inventory_dev : Int
  max_balance_dev : ℚ
  resting_orders : List (String × Int)
  unregistered_fills : List (String × Int)
  last_fill_ts : Int
deriving DecidableEq, Repr

/-- `Executor.update_inv_on_fill`: mutates `last_fill_ts`, sets `inventory`
to the fill's `post_position`, adjusts the order maps, then raises
`PositionLimitExceeded` when `abs(inventory) > max_inventory`. -/
def update_inv_on_fill (s : ExecState) (f : FillMsg) : ExecState × Option RiskErr :=
  let s := { s with last_fill_ts := f.ts * 1000000000 }
  let s := { s with inventory := f.post_position }
  let s : ExecState :=
    match dLookup s.resting_orders f.order_id with
    | some r =>
      if r - f.count ≤ 0 then { s with resting_orders := dErase s.resting_orders f.order_id }
      else { s with resting_orders := dSet s.resting_orders f.order_id (r - f.count) }
    | none =>
      { s with
        unregistered_fills :=
          dSet s.unregistered_fills f.order_id
            ((dLookup s.unregistered_fills f.order_id).getD 0 + f.count) }
  if s.max_inventory < |s.inventory| then (s, some RiskErr.PositionLimitExceeded)
  else (s, none)

inductive OrderAction where
  | buy
  | sell
deriving DecidableEq, Repr

/-- The fields of `Order` used by `constrain_order`. -/
structure Order where
  side : Side
  action : OrderAction
  count : Int
  yes_price_dollars : Int
deriving DecidableEq, Repr

/-- `Executor.constrain_order`. -/
def constrain_order (s : ExecState) (o : Order) : Order :=
  let is_long :=
    (o.action = OrderAction.buy ∧ o.side = Side.yes) ∨
      (o.action = OrderAction.sell ∧ o.side = Side.no)
  let max_delta := if is_long then s.max_inventory - s.inventory else s.inventory + s.max_inventory
  { o with count := max 0 (min max_delta o.count) }

/-- One order of the REST batch-create response (`order_id` and
`remaining_count` of the nested `order` object). -/
structure PlacedOrder where
  order_id : String
  remaining_count : Int
deriving DecidableEq, Repr

/-- `Executor._place_batch_order` with a placement race: `unregistered_fills`
is cleared, the orders are constrained, then — while the REST call is in
flight — the fills in `fillsDuring` are handled by `update_inv_on_fill`
(the order maps and inventory mutate even when the inventory check raises),
and finally each returned order is reconciled:
`resting_orders[id] = remaining_count - unregistered_fills.pop(id, 0)` when
positive. -/
def placeBatchOrderWithFills (s : ExecState) (orders : List Order)
    (fillsDuring : List FillMsg) (resp : List PlacedOrder) : ExecState :=
  let s := { s with unregistered_fills := [] }
  let _constrained := orders.map (constrain_order s)
  let s := fillsDuring.foldl (fun s f => (update_inv_on_fill s f).1) s
  resp.foldl
    (fun s o =>
      let unregistered := (dLookup s.unregistered_fills o.order_id).getD 0
      let s := { s with unregistered_fills := dErase s.unregistered_fills o.order_id }
      if 0 < o.remaining_count - unregistered then
        { s with resting_orders := dSet s.resting_orders o.order_id (o.remaining_count - unregistered) }
      else s)
    s

/-- `Executor._sync_orders`: clears both maps and replaces `resting_orders`
with the remote resting orders (the REST response already filtered to
`status == "resting"`). -/
def syncOrders (s : ExecState) (remote : List (String × Int)) : ExecState :=
  { s with resting_orders := remote, unregistered_fills := [] }

/-- `Executor._sync_balance`: sets `balance` from the REST cents value, then
raises `BalanceLimitExceeded` below `minimum_balance`, else logs a
`BalanceMismatchError` when the remote/local deviation exceeds
`max_balance_dev`. -/
def syncBalance (s : ExecState) (remoteCents : Int) : ExecState × Option RiskErr × List LogEvent :=
  let localBal := s.balance
  let s := { s with balance := (remoteCents : ℚ) / 100 }
  if s.balance < s.minimum_balance then
    (s, some RiskErr.BalanceLimitExceeded, [LogEvent.balanceLimitLog])
  else if s.max_balance_dev < |s.balance - localBal| then
    (s, none, [LogEvent.balanceMismatchLog])
  else (s, none, [])

/-- `Executor._sync_inventory`: folds over the positions response setting
`inventory` for the matching ticker, then raises `PositionLimitExceeded`
when `abs(inventory) > max_inventory`.  The source performs no
deviation check against `max_inventory_dev` and emits no mismatch log. -/
def syncInventory (s : ExecState) (positions : List (String × Int)) (ticker : String) :
    ExecState × Option RiskErr × List LogEvent :=
  let s := positions.foldl (fun s p => if p.1 = ticker then { s with inventory := p.2 } else s) s
  if s.max_inventory < |s.inventory| then
    (s, some RiskErr.PositionLimitExceeded, [LogEvent.inventoryLimitLog])
  else (s, none, [])

/-- `Executor.reconcile`: under the execution lock, sync orders, then
balance, then inventory; a raise from an earlier sync aborts the rest.
Returns the final state, the raised error (if any), and the emitted log
events. -/
def reconcile (s : ExecState) (remoteOrders : List (String × Int)) (remoteCents : Int)
    (positions : List (String × Int)) (ticker : String) :
    (ExecState × Option RiskErr) × List LogEvent :=
  let s := syncOrders s remoteOrders
  let bres := syncBalance s remoteCents
  match bres.2.1 with
  | some err => ((bres.1, some err), bres.2.2)
  | none =>
    let ires := syncInventory bres.1 positions ticker
    match ires.2.1 with
    | some err => ((ires.1, some err), bres.2.2 ++ ires.2.2)
    | none => ((ires.1, none), bres.2.2 ++ ires.2.2)

/-- A market order as built by `Executor._close_position`. -/
structure MarketOrder where
  side : Side
  action : OrderAction
  count : Int
deriving DecidableEq, Repr

/-- `Executor._close_position` (successful-cancellation path): sync orders,
cancel the outstanding orders (acknowledged ids are popped; when any remain
the orders are synced again), sync inventory — whose limit check raises
`PositionLimitExceeded` before any order is built — then place a single
market sell of the whole position on the side that unwinds it. -/
def closePosition (s : ExecState) (remoteOrders : List (String × Int))
    (cancelAcks : List String) (remoteOrders2 : List (String × Int))
    (positions : List (String × Int)) (ticker : String) :
    (ExecState × Option RiskErr) × Option MarketOrder :=
  let s := syncOrders s remoteOrders
  let s :=
    if s.resting_orders = [] then s
    else
      let s := cancelAcks.foldl
        (fun s oid => { s with resting_orders := dErase s.resting_orders oid }) s
      if s.resting_orders = [] then s else syncOrders s remoteOrders2
  let ires := syncInventory s positions ticker
  match ires.2.1 with
  | some err => ((ires.1, some err), none)
  | none =>
    let s := ires.1
    let order :=
      if 0 < s.inventory then
        some { side := Side.yes, action := OrderAction.sell, count := s.inventory }
      else if s.inventory < 0 then
        some { side := Side.no, action := OrderAction.sell, count := |s.inventory| }
      else none
    ((s, none), order)

/-- The fill branch of `KalshiWebsocket.handle_msg`: `executor.on_fill`
(which is `update_inv_on_fill` in `OptionsExecutor.on_fill`) is called and
any exception it raises propagates out of `handle_msg` (only pydantic
`ValidationError` is caught there). -/
def wsHandleFillMsg (s : ExecState) (f : FillMsg) : ExecState × Option RiskErr :=
  update_inv_on_fill s f

/-- The message loop of `KalshiWebsocket.run` around one `handle_msg` call:
`except Exception as e: logger.error(...)` catches every exception raised by
`handle_msg` — `PositionLimitExceeded` included — so nothing surfaces from
the task and the loop continues. -/
def wsRunLoopHandle (s : ExecState) (f : FillMsg) : ExecState × Option RiskErr :=
  let r := wsHandleFillMsg s f
  match r.2 with
  | some _ => (r.1, none)
  | none => (r.1, none)

/-! ## Invariants of the book's cached best levels -/

/-- Cached-best consistency for the YES side: an empty side collapses to
`best_bid = 0`, `bid_size = 0`; otherwise the head level (the maximal one)
is cached. -/
def YesInv (ob : OrderBook) : Prop :=
  (ob.yes_book = [] → ob.best_bid = 0 ∧ ob.bid_size = 0) ∧
  (∀ k v t, ob.yes_book = (k, v) :: t → ob.best_bid = k ∧ ob.bid_size = v)

/-- Cached-best consistency for the NO side: an empty side collapses to
`best_ask = 10000`, `ask_size = 0`; otherwise the head NO level's complement
is cached. -/
def NoInv (ob : OrderBook) : Prop :=
  (ob.no_book = [] → ob.best_ask = 10000 ∧ ob.ask_size = 0) ∧
  (∀ k v t, ob.no_book = (k, v) :: t → ob.best_ask = 10000 - k ∧ ob.ask_size = v)

/-- The structural order-book invariant. -/
def ObInv (ob : OrderBook) : Prop :=
  BookSorted ob.yes_book ∧ BookSorted ob.no_book ∧ YesInv ob ∧ NoInv ob

/-- All price keys of a side are positive. -/
def PosKeys (b : List (Int × Int)) : Prop := ∀ pc ∈ b, 0 < pc.1

/-- Both sides carry only positive price keys. -/
def ObPos (ob : OrderBook) : Prop := PosKeys ob.yes_book ∧ PosKeys ob.no_book

/-- A delta operation carries a positive price (snapshots unrestricted). -/
def deltaPricePos : BookOp → Prop
  | BookOp.snapshot _ _ => True
  | BookOp.delta _ m => 0 < m.price_dollars

/-- Every price carried by the operation is positive. -/
def opPricesPos : BookOp → Prop
  | BookOp.snapshot _ msg =>
    (∀ pc ∈ msg.yes_dollars, 0 < pc.1) ∧ (∀ pc ∈ msg.no_dollars, 0 < pc.1)
  | BookOp.delta _ m => 0 < m.price_dollars

/-- Representation predicate for `PriceBuffer`: `b` is the buffer obtained
after pushing the elements of `xs` (oldest first) into a fresh buffer of
capacity `cap`: its logical content is the last `min |xs| cap` elements of
`xs`, laid out circularly from `head`. -/
def PBRep {α : Type} (cap : Nat) (xs : List α) (b : PriceBuffer α) : Prop :=
  b.capacity = cap ∧ b.buffer.length = cap ∧ b.head < cap ∧
    b.size = min xs.length cap ∧
    ∀ i, i < b.size → b.buffer[(b.head + i) % cap]? = some (xs[xs.length - b.size + i]?)

/-- Executor state for the inventory-limit scenario: `max_inventory = 50`,
current inventory 48, no resting orders. -/
def c1State : ExecState :=
  { inventory := 48, max_inventory := 50, balance := 1000, minimum_balance := 0
    max_inventory_dev := 5, max_balance_dev := 10, resting_orders := []
    unregistered_fills := [], last_fill_ts := 0 }

/-- The scenario's fill: `post_position = 52`. -/
def c1Fill : FillMsg := { order_id := "o1", count := 4, post_position := 52, ts := 7 }

/-- Executor state for the placement-race scenario: flat inventory, generous
limits, empty maps. -/
def c2State : ExecState :=
  { inventory := 0, max_inventory := 1000, balance := 1000, minimum_balance := 0
    max_inventory_dev := 5, max_balance_dev := 10, resting_orders := []
    unregistered_fills := [], last_fill_ts := 0 }

/-- Executor state for the reconciliation scenario: local inventory 0 and
balance 0, `max_inventory_dev = 5`, `max_balance_dev = 10`. -/
def c6State : ExecState :=
  { inventory := 0, max_inventory := 100, balance := 0, minimum_balance := 0
    max_inventory_dev := 5, max_balance_dev := 10, resting_orders := []
    unregistered_fills := [], last_fill_ts := 0 }

/-- Websocket/market state after a live subscription: deltas flowing, last
applied sequence number 10. -/
def c3WS : WSState :=
  { pending_snapshot := false
    orderbook := { OrderBook.init with seq_n := some 10 }
    price_window := PriceBuffer.empty (Int × Int) 5 }

/-- A delta message used to probe the gap logic. -/
def c3Delta : OrderBookDeltaMsg := { side := Side.yes, price_dollars := 3000, delta := 1, ts := 0 }

/-- Operation list for the best-level invariant witness: the spec's
subscribe-snapshot-delta scenario. -/
def c4Ops : List BookOp :=
  [BookOp.snapshot 10 { yes_dollars := [(3000, 5), (3100, 7)], no_dollars := [(6800, 2)] },
   BookOp.delta 11 { side := Side.yes, price_dollars := 3100, delta := -7, ts := 77 }]

/-- Operation list for the mid-price witness: a two-sided uncrossed book. -/
def c5Ops : List BookOp :=
  [BookOp.snapshot 10 { yes_dollars := [(3000, 5), (3100, 7)], no_dollars := [(6800, 2)] }]

instance (op : BookOp) : Decidable (deltaPricePos op) := by
  cases op <;> unfold deltaPricePos <;> infer_instance

instance (op : BookOp) : Decidable (opPricesPos op) := by
  cases op <;> unfold opPricesPos <;> infer_instance

theorem refreshDerived_yes_book (ob : OrderBook) : (refreshDerived ob).yes_book = ob.yes_book := rfl

theorem refreshDerived_no_book (ob : OrderBook) : (refreshDerived ob).no_book = ob.no_book := rfl

theorem refreshDerived_best_bid (ob : OrderBook) : (refreshDerived ob).best_bid = ob.best_bid := rfl

theorem refreshDerived_bid_size (ob : OrderBook) : (refreshDerived ob).bid_size = ob.bid_size := rfl

theorem refreshDerived_best_ask (ob : OrderBook) : (refreshDerived ob).best_ask = ob.best_ask := rfl

theorem refreshDerived_ask_size (ob : OrderBook) : (refreshDerived ob).ask_size = ob.ask_size := rfl

theorem dLookup_mem {b : List (Int × Int)} {k v : Int} (h : dLookup b k = some v) :
    (k, v) ∈ b := by
  induction b with
  | nil => simp [dLookup] at h
  | cons hd t ih =>
    obtain ⟨k', v'⟩ := hd
    by_cases hk : k = k'
    · subst hk
      simp [dLookup] at h
      simp [h]
    · simp [dLookup, hk] at h
      exact List.mem_cons_of_mem _ (ih h)

theorem dLookup_cons_ne {t : List (Int × Int)} {k k' v' : Int} (h : k ≠ k') :
    dLookup ((k', v') :: t) k = dLookup t k := by
  simp [dLookup, h]

theorem bookInsert_mem {b : List (Int × Int)} {p c : Int} :
    ∀ y ∈ bookInsert b p c, y = (p, c) ∨ y ∈ b := by
  induction b with
  | nil => simp [bookInsert]
  | cons hd t ih =>
    obtain ⟨k, v⟩ := hd
    intro y hy
    by_cases h1 : k < p
    · simp [bookInsert, h1] at hy
      rcases hy with hy | hy | hy
      · exact Or.inl (by simp [hy])
      · exact Or.inr (by simp [hy])
      · exact Or.inr (List.mem_cons_of_mem _ hy)
    · by_cases h2 : p = k
      · subst h2
        simp [bookInsert, h1] at hy
        rcases hy with hy | hy
        · exact Or.inl (by simp [hy])
        · exact Or.inr (List.mem_cons_of_mem _ hy)
      · simp [bookInsert, h1, h2] at hy
        rcases hy with hy | hy
        · exact Or.inr (by simp [hy])
        · rcases ih y hy with h | h
          · exact Or.inl h
          · exact Or.inr (List.mem_cons_of_mem _ h)

theorem bookInsert_head_gt {t : List (Int × Int)} {k v p c : Int} (h : k < p) :
    bookInsert ((k, v) :: t) p c = (p, c) :: (k, v) :: t := by
  simp [bookInsert, h]

theorem bookInsert_head_eq {t : List (Int × Int)} {k v c : Int} :
    bookInsert ((k, v) :: t) k c = (k, c) :: t := by
  simp [bookInsert]

theorem bookInsert_head_lt {t : List (Int × Int)} {k v p c : Int} (h : p < k) :
    bookInsert ((k, v) :: t) p c = (k, v) :: bookInsert t p c := by
  have h1 : ¬k < p := by omega
  have h2 : ¬p = k := by omega
  simp [bookInsert, h1, h2]

theorem bookInsert_sorted {b : List (Int × Int)} {p c : Int} (h : BookSorted b) :
    BookSorted (bookInsert b p c) := by
  induction b with
  | nil => simp [bookInsert, BookSorted]
  | cons hd t ih =>
    obtain ⟨k, v⟩ := hd
    rw [BookSorted, List.pairwise_cons] at h
    obtain ⟨hbound, htail⟩ := h
    rcases lt_trichotomy k p with h1 | h1 | h1
    · rw [bookInsert_head_gt h1, BookSorted, List.pairwise_cons]
      constructor
      · intro y hy
        rcases List.mem_cons.mp hy with hy | hy
        · simp [hy]; omega
        · have := hbound y hy
          simp at this ⊢
          omega
      · rw [List.pairwise_cons]
        exact ⟨hbound, htail⟩
    · subst h1
      rw [bookInsert_head_eq, BookSorted, List.pairwise_cons]
      exact ⟨hbound, htail⟩
    · rw [bookInsert_head_lt h1, BookSorted, List.pairwise_cons]
      constructor
      · intro y hy
        rcases bookInsert_mem y hy with hy | hy
        · simp [hy]; omega
        · exact hbound y hy
      · exact ih htail

theorem dErase_sublist {κ : Type} [DecidableEq κ] (b : List (κ × Int)) (k : κ) :
    List.Sublist (dErase b k) b := by
  induction b with
  | nil => simp [dErase]
  | cons hd t ih =>
    obtain ⟨k', v'⟩ := hd
    by_cases h : k = k'
    · rw [dErase, if_pos h]
      exact List.sublist_cons_self _ _
    · rw [dErase, if_neg h]
      exact List.Sublist.cons₂ _ ih

theorem dErase_sorted {b : List (Int × Int)} {k : Int} (h : BookSorted b) :
    BookSorted (dErase b k) :=
  List.Pairwise.sublist (dErase_sublist b k) h

theorem dErase_head_eq {κ : Type} [DecidableEq κ] {t : List (κ × Int)} {k : κ} {v : Int} :
    dErase ((k, v) :: t) k = t := by
  simp [dErase]

theorem dErase_head_ne {κ : Type} [DecidableEq κ] {t : List (κ × Int)} {k p : κ} {v : Int}
    (h : p ≠ k) : dErase ((k, v) :: t) p = (k, v) :: dErase t p := by
  simp [dErase, h]

theorem sorted_head_bound {t : List (Int × Int)} {k v : Int}
    (h : BookSorted ((k, v) :: t)) : ∀ pc ∈ t, pc.1 < k := by
  rw [BookSorted, List.pairwise_cons] at h
  exact fun pc hpc => h.1 pc hpc

theorem dLookup_some_cases {t : List (Int × Int)} {k v p c : Int}
    (hs : BookSorted ((k, v) :: t)) (h : dLookup ((k, v) :: t) p = some c) :
    (p = k ∧ c = v) ∨ (p < k ∧ dLookup t p = some c) := by
  by_cases hk : p = k
  · subst hk
    simp [dLookup] at h
    exact Or.inl ⟨rfl, h.symm⟩
  · rw [dLookup_cons_ne hk] at h
    have := sorted_head_bound hs _ (dLookup_mem h)
    exact Or.inr ⟨this, h⟩

theorem dLookup_none_ne_head {t : List (Int × Int)} {k v p : Int}
    (h : dLookup ((k, v) :: t) p = none) : p ≠ k := by
  intro hk
  subst hk
  simp [dLookup] at h

theorem bookOfPairs_sorted_aux (pairs : List (Int × Int)) :
    ∀ b, BookSorted b →
      BookSorted (pairs.foldl (fun b pc => bookAddAgg b pc.1 pc.2) b) := by
  induction pairs with
  | nil => intro b hb; exact hb
  | cons hd t ih =>
    intro b hb
    exact ih _ (bookInsert_sorted hb)

theorem bookOfPairs_sorted (pairs : List (Int × Int)) : BookSorted (bookOfPairs pairs) :=
  bookOfPairs_sorted_aux pairs [] List.Pairwise.nil

theorem applySnapshot_inv (ob : OrderBook) (seq : Int) (msg : OrderBookSnapshotMsg) :
    ObInv (applySnapshot ob seq msg) := by
  have hy := bookOfPairs_sorted msg.yes_dollars
  have hn := bookOfPairs_sorted msg.no_dollars
  unfold ObInv YesInv NoInv applySnapshot
  rcases hyb : bookOfPairs msg.yes_dollars with _ | ⟨⟨k, v⟩, t⟩ <;>
    rcases hnb : bookOfPairs msg.no_dollars with _ | ⟨⟨k', v'⟩, t'⟩ <;>
    rw [hyb] at hy <;> rw [hnb] at hn <;>
    simp [refreshDerived, hyb, hnb, hy, hn]

theorem findNewBestBid_inv {ob : OrderBook} (hs : BookSorted ob.yes_book) :
    BookSorted (findNewBestBid ob).yes_book ∧ YesInv (findNewBestBid ob) ∧
      (findNewBestBid ob).no_book = ob.no_book ∧
      (findNewBestBid ob).best_ask = ob.best_ask ∧
      (findNewBestBid ob).ask_size = ob.ask_size := by
  unfold findNewBestBid YesInv
  rcases hb : ob.yes_book with _ | ⟨⟨k, v⟩, t⟩ <;> simp [hb] <;> simp_all

theorem findNewBestAsk_inv {ob : OrderBook} (hs : BookSorted ob.no_book) :
    BookSorted (findNewBestAsk ob).no_book ∧ NoInv (findNewBestAsk ob) ∧
      (findNewBestAsk ob).yes_book = ob.yes_book ∧
      (findNewBestAsk ob).best_bid = ob.best_bid ∧
      (findNewBestAsk ob).bid_size = ob.bid_size := by
  unfold findNewBestAsk NoInv
  rcases hb : ob.no_book with _ | ⟨⟨k, v⟩, t⟩ <;> simp [hb] <;> simp_all

theorem YesInv_transfer {X ob : OrderBook} (e1 : X.yes_book = ob.yes_book)
    (e2 : X.best_bid = ob.best_bid) (e3 : X.bid_size = ob.bid_size) (h : YesInv ob) :
    YesInv X := by
  unfold YesInv at *
  rw [e1, e2, e3]
  exact h

theorem NoInv_transfer {X ob : OrderBook} (e1 : X.no_book = ob.no_book)
    (e2 : X.best_ask = ob.best_ask) (e3 : X.ask_size = ob.ask_size) (h : NoInv ob) :
    NoInv X := by
  unfold NoInv at *
  rw [e1, e2, e3]
  exact h

theorem YesInv_mk {X : OrderBook} {k v : Int} {t : List (Int × Int)}
    (hb : X.yes_book = (k, v) :: t) (h1 : X.best_bid = k) (h2 : X.bid_size = v) :
    YesInv X := by
  constructor
  · intro h
    rw [hb] at h
    cases h
  · intro k' v' t' h
    rw [hb] at h
    rw [List.cons.injEq, Prod.mk.injEq] at h
    rw [h1, h2, h.1.1, h.1.2]
    exact ⟨rfl, rfl⟩

theorem NoInv_mk {X : OrderBook} {k v : Int} {t : List (Int × Int)}
    (hb : X.no_book = (k, v) :: t) (h1 : X.best_ask = 10000 - k) (h2 : X.ask_size = v) :
    NoInv X := by
  constructor
  · intro h
    rw [hb] at h
    cases h
  · intro k' v' t' h
    rw [hb] at h
    rw [List.cons.injEq, Prod.mk.injEq] at h
    rw [h1, h2, h.1.1, h.1.2]
    exact ⟨rfl, rfl⟩

theorem applyDeltaYes_inv {ob : OrderBook} {p d : Int} (h : ObInv ob) (hp : 0 < p) :
    ObInv (applyDeltaYes ob p d) := by
  obtain ⟨hsy, hsn, hyi, hni⟩ := h
  unfold applyDeltaYes
  rcases hb : ob.yes_book with _ | ⟨⟨k, v⟩, t⟩
  · -- empty YES side: the lookup misses and the cached bid is (0, 0)
    have hbb := hyi.1 hb
    simp only [dLookup]
    by_cases hd : 0 < d
    · rw [if_pos hd, if_pos (by omega : ob.best_bid < p)]
      refine ⟨?_, hsn, ?_, NoInv_transfer rfl rfl rfl hni⟩
      · show BookSorted (bookInsert [] p d)
        simp [bookInsert, BookSorted]
      · exact YesInv_mk (show bookInsert [] p d = (p, d) :: [] from rfl) rfl rfl
    · rw [if_neg hd]
      exact ⟨hb ▸ hsy, hsn, YesInv_transfer rfl rfl rfl hyi, hni⟩
  · have hbb : ob.best_bid = k := (hyi.2 k v t hb).1
    have hbs : ob.bid_size = v := (hyi.2 k v t hb).2
    have hsy' : BookSorted ((k, v) :: t) := hb ▸ hsy
    rcases hl : dLookup ((k, v) :: t) p with _ | c
    · -- level absent
      have hpk : p ≠ k := dLookup_none_ne_head hl
      dsimp only
      by_cases hd : 0 < d
      · rw [if_pos hd]
        rcases lt_or_gt_of_ne hpk with hlt | hgt
        · rw [if_neg (by omega : ¬ob.best_bid < p)]
          refine ⟨bookInsert_sorted hsy', hsn, ?_, NoInv_transfer rfl rfl rfl hni⟩
          exact YesInv_mk (show bookInsert ((k, v) :: t) p d = (k, v) :: bookInsert t p d from
            bookInsert_head_lt hlt) hbb hbs
        · rw [if_pos (by omega : ob.best_bid < p)]
          refine ⟨bookInsert_sorted hsy', hsn, ?_, NoInv_transfer rfl rfl rfl hni⟩
          exact YesInv_mk (show bookInsert ((k, v) :: t) p d = (p, d) :: (k, v) :: t from
            bookInsert_head_gt hgt) rfl rfl
      · rw [if_neg hd]
        exact ⟨hb ▸ hsy, hsn, YesInv_transfer rfl rfl rfl hyi, hni⟩
    · -- level present
      dsimp only
      rcases dLookup_some_cases hsy' hl with ⟨hpk, hcv⟩ | ⟨hlt, _⟩
      · -- the updated level is the cached best
        subst hpk
        by_cases hz : c + d ≤ 0
        · rw [if_pos hz, if_pos hbb.symm]
          have hres := @findNewBestBid_inv
            { ob with yes_book := dErase ((p, v) :: t) p }
            (by show BookSorted (dErase ((p, v) :: t) p)
                rw [dErase_head_eq]
                exact hsy'.of_cons)
          refine ⟨hres.1, ?_, hres.2.1, NoInv_transfer hres.2.2.1 hres.2.2.2.1 hres.2.2.2.2 hni⟩
          show BookSorted (findNewBestBid { ob with yes_book := dErase ((p, v) :: t) p }).no_book
          rw [hres.2.2.1]
          exact hsn
        · rw [if_neg hz, if_pos hbb.symm]
          refine ⟨bookInsert_sorted hsy', hsn, ?_, NoInv_transfer rfl rfl rfl hni⟩
          exact YesInv_mk (show bookInsert ((p, v) :: t) p (c + d) = (p, c + d) :: t from
            bookInsert_head_eq) hbb rfl
      · -- the updated level is below the cached best
        have hpk : p ≠ ob.best_bid := by omega
        by_cases hz : c + d ≤ 0
        · rw [if_pos hz, if_neg hpk]
          refine ⟨dErase_sorted hsy', hsn, ?_, NoInv_transfer rfl rfl rfl hni⟩
          exact YesInv_mk (show dErase ((k, v) :: t) p = (k, v) :: dErase t p from
            dErase_head_ne (by omega)) hbb hbs
        · rw [if_neg hz, if_neg hpk]
          refine ⟨bookInsert_sorted hsy', hsn, ?_, NoInv_transfer rfl rfl rfl hni⟩
          exact YesInv_mk (show bookInsert ((k, v) :: t) p (c + d) = (k, v) :: bookInsert t p (c + d) from
            bookInsert_head_lt hlt) hbb hbs

theorem applyDeltaNo_inv {ob : OrderBook} {p d : Int} (h : ObInv ob) (hp : 0 < p) :
    ObInv (applyDeltaNo ob p d) := by
  obtain ⟨hsy, hsn, hyi, hni⟩ := h
  unfold applyDeltaNo
  rcases hb : ob.no_book with _ | ⟨⟨k, v⟩, t⟩
  · -- empty NO side: the lookup misses and the cached ask is (10000, 0)
    have hba := hni.1 hb
    simp only [dLookup]
    by_cases hd : 0 < d
    · rw [if_pos hd, if_pos (by omega : 10000 - p < ob.best_ask)]
      refine ⟨hsy, ?_, YesInv_transfer rfl rfl rfl hyi, ?_⟩
      · show BookSorted (bookInsert [] p d)
        simp [bookInsert, BookSorted]
      · exact NoInv_mk (show bookInsert [] p d = (p, d) :: [] from rfl) rfl rfl
    · rw [if_neg hd]
      exact ⟨hsy, hb ▸ hsn, hyi, NoInv_transfer rfl rfl rfl hni⟩
  · have hba : ob.best_ask = 10000 - k := (hni.2 k v t hb).1
    have has : ob.ask_size = v := (hni.2 k v t hb).2
    have hsn' : BookSorted ((k, v) :: t) := hb ▸ hsn
    rcases hl : dLookup ((k, v) :: t) p with _ | c
    · -- level absent
      have hpk : p ≠ k := dLookup_none_ne_head hl
      dsimp only
      by_cases hd : 0 < d
      · rw [if_pos hd]
        rcases lt_or_gt_of_ne hpk with hlt | hgt
        · rw [if_neg (by omega : ¬10000 - p < ob.best_ask)]
          refine ⟨hsy, bookInsert_sorted hsn', YesInv_transfer rfl rfl rfl hyi, ?_⟩
          exact NoInv_mk (show bookInsert ((k, v) :: t) p d = (k, v) :: bookInsert t p d from
            bookInsert_head_lt hlt) hba has
        · rw [if_pos (by omega : 10000 - p < ob.best_ask)]
          refine ⟨hsy, bookInsert_sorted hsn', YesInv_transfer rfl rfl rfl hyi, ?_⟩
          exact NoInv_mk (show bookInsert ((k, v) :: t) p d = (p, d) :: (k, v) :: t from
            bookInsert_head_gt hgt) rfl rfl
      · rw [if_neg hd]
        exact ⟨hsy, hb ▸ hsn, hyi, NoInv_transfer rfl rfl rfl hni⟩
    · -- level present
      dsimp only
      rcases dLookup_some_cases hsn' hl with ⟨hpk, hcv⟩ | ⟨hlt, _⟩
      · -- the updated level is the complement of the cached best ask
        subst hpk
        by_cases hz : c + d ≤ 0
        · rw [if_pos hz, if_pos (by omega : 10000 - p = ob.best_ask)]
          have hres := @findNewBestAsk_inv
            { ob with no_book := dErase ((p, v) :: t) p }
            (by show BookSorted (dErase ((p, v) :: t) p)
                rw [dErase_head_eq]
                exact hsn'.of_cons)
          refine ⟨?_, hres.1, YesInv_transfer hres.2.2.1 hres.2.2.2.1 hres.2.2.2.2 hyi, hres.2.1⟩
          show BookSorted (findNewBestAsk { ob with no_book := dErase ((p, v) :: t) p }).yes_book
          rw [hres.2.2.1]
          exact hsy
        · rw [if_neg hz, if_pos (by omega : 10000 - p = ob.best_ask)]
          refine ⟨hsy, bookInsert_sorted hsn', YesInv_transfer rfl rfl rfl hyi, ?_⟩
          exact NoInv_mk (show bookInsert ((p, v) :: t) p (c + d) = (p, c + d) :: t from
            bookInsert_head_eq) hba rfl
      · -- the updated level is below the cached best ask's complement
        have hpk : ¬10000 - p = ob.best_ask := by omega
        by_cases hz : c + d ≤ 0
        · rw [if_pos hz, if_neg hpk]
          refine ⟨hsy, dErase_sorted hsn', YesInv_transfer rfl rfl rfl hyi, ?_⟩
          exact NoInv_mk (show dErase ((k, v) :: t) p = (k, v) :: dErase t p from
            dErase_head_ne (by omega)) hba has
        · rw [if_neg hz, if_neg hpk]
          refine ⟨hsy, bookInsert_sorted hsn', YesInv_transfer rfl rfl rfl hyi, ?_⟩
          exact NoInv_mk (show bookInsert ((k, v) :: t) p (c + d) = (k, v) :: bookInsert t p (c + d) from
            bookInsert_head_lt hlt) hba has

theorem applyDelta_inv {ob : OrderBook} (seq : Int) {m : OrderBookDeltaMsg}
    (h : ObInv ob) (hp : 0 < m.price_dollars) : ObInv (applyDelta ob seq m) := by
  obtain ⟨h1, h2, h3, h4⟩ := h
  have hseq : ObInv { ob with seq_n := some seq } :=
    ⟨h1, h2, YesInv_transfer rfl rfl rfl h3, NoInv_transfer rfl rfl rfl h4⟩
  unfold applyDelta
  rcases m with ⟨side, p, d, ts⟩
  cases side
  · obtain ⟨g1, g2, g3, g4⟩ := applyDeltaYes_inv hseq hp
    exact ⟨g1, g2, YesInv_transfer rfl rfl rfl g3, NoInv_transfer rfl rfl rfl g4⟩
  · obtain ⟨g1, g2, g3, g4⟩ := applyDeltaNo_inv hseq hp
    exact ⟨g1, g2, YesInv_transfer rfl rfl rfl g3, NoInv_transfer rfl rfl rfl g4⟩

theorem obInit_inv : ObInv OrderBook.init := by
  refine ⟨List.Pairwise.nil, List.Pairwise.nil, ⟨fun _ => ⟨rfl, rfl⟩, ?_⟩,
    ⟨fun _ => ⟨rfl, rfl⟩, ?_⟩⟩ <;> intro k v t h <;> cases h

theorem obStep_inv {ob : OrderBook} {op : BookOp} (h : ObInv ob) (hp : deltaPricePos op) :
    ObInv (obStep ob op) := by
  cases op with
  | snapshot seq msg => exact applySnapshot_inv ob seq msg
  | delta seq m => exact applyDelta_inv seq h hp

theorem obRun_inv_aux (ops : List BookOp) :
    ∀ ob, ObInv ob → (∀ op ∈ ops, deltaPricePos op) →
      ObInv (ops.foldl obStep ob) := by
  induction ops with
  | nil => exact fun ob h _ => h
  | cons hd t ih =>
    intro ob h hall
    exact ih _ (obStep_inv h (hall hd (List.mem_cons_self hd t)))
      (fun op hop => hall op (List.mem_cons_of_mem hd hop))

theorem obRun_inv {ops : List BookOp} (h : ∀ op ∈ ops, deltaPricePos op) :
    ObInv (obRun ops) :=
  obRun_inv_aux ops OrderBook.init obInit_inv h

/-! ## Positivity of price keys (needed for the mid-price claims) -/

theorem posKeys_insert {b : List (Int × Int)} {p c : Int} (h : PosKeys b) (hp : 0 < p) :
    PosKeys (bookInsert b p c) := by
  intro y hy
  rcases bookInsert_mem y hy with hy | hy
  · rw [hy]; exact hp
  · exact h y hy

theorem posKeys_erase {b : List (Int × Int)} {k : Int} (h : PosKeys b) :
    PosKeys (dErase b k) :=
  fun y hy => h y ((dErase_sublist b k).subset hy)

theorem posKeys_bookOfPairs_aux (pairs : List (Int × Int))
    (hp : ∀ pc ∈ pairs, 0 < pc.1) :
    ∀ b, PosKeys b → PosKeys (pairs.foldl (fun b pc => bookAddAgg b pc.1 pc.2) b) := by
  induction pairs with
  | nil => exact fun b h => h
  | cons hd t ih =>
    intro b h
    exact ih (fun pc hpc => hp pc (List.mem_cons_of_mem hd hpc)) _
      (posKeys_insert h (hp hd (List.mem_cons_self hd t)))

theorem posKeys_bookOfPairs {pairs : List (Int × Int)} (hp : ∀ pc ∈ pairs, 0 < pc.1) :
    PosKeys (bookOfPairs pairs) :=
  posKeys_bookOfPairs_aux pairs hp [] (fun y hy => absurd hy (List.not_mem_nil y))

theorem findNewBestBid_yes_book (ob : OrderBook) :
    (findNewBestBid ob).yes_book = ob.yes_book := by
  unfold findNewBestBid
  split <;> rfl

theorem findNewBestBid_no_book (ob : OrderBook) :
    (findNewBestBid ob).no_book = ob.no_book := by
  unfold findNewBestBid
  split <;> rfl

theorem findNewBestAsk_yes_book (ob : OrderBook) :
    (findNewBestAsk ob).yes_book = ob.yes_book := by
  unfold findNewBestAsk
  split <;> rfl

theorem findNewBestAsk_no_book (ob : OrderBook) :
    (findNewBestAsk ob).no_book = ob.no_book := by
  unfold findNewBestAsk
  split <;> rfl

theorem applyDeltaYes_books (ob : OrderBook) (p d : Int) :
    ((applyDeltaYes ob p d).yes_book = ob.yes_book ∨
      (∃ x, (applyDeltaYes ob p d).yes_book = bookInsert ob.yes_book p x) ∨
      (applyDeltaYes ob p d).yes_book = dErase ob.yes_book p) ∧
    (applyDeltaYes ob p d).no_book = ob.no_book := by
  unfold applyDeltaYes
  rcases hl : dLookup ob.yes_book p with _ | c <;> dsimp only <;> split_ifs <;>
    first
      | exact ⟨Or.inl rfl, rfl⟩
      | exact ⟨Or.inr (Or.inl ⟨_, rfl⟩), rfl⟩
      | exact ⟨Or.inr (Or.inr rfl), rfl⟩
      | exact ⟨Or.inr (Or.inr (findNewBestBid_yes_book _)), findNewBestBid_no_book _⟩

theorem applyDeltaNo_books (ob : OrderBook) (p d : Int) :
    ((applyDeltaNo ob p d).no_book = ob.no_book ∨
      (∃ x, (applyDeltaNo ob p d).no_book = bookInsert ob.no_book p x) ∨
      (applyDeltaNo ob p d).no_book = dErase ob.no_book p) ∧
    (applyDeltaNo ob p d).yes_book = ob.yes_book := by
  unfold applyDeltaNo
  rcases hl : dLookup ob.no_book p with _ | c <;> dsimp only <;> split_ifs <;>
    first
      | exact ⟨Or.inl rfl, rfl⟩
      | exact ⟨Or.inr (Or.inl ⟨_, rfl⟩), rfl⟩
      | exact ⟨Or.inr (Or.inr rfl), rfl⟩
      | exact ⟨Or.inr (Or.inr (findNewBestAsk_no_book _)), findNewBestAsk_yes_book _⟩

theorem applyDeltaYes_pos {ob : OrderBook} {p d : Int} (h : ObPos ob) (hp : 0 < p) :
    ObPos (applyDeltaYes ob p d) := by
  obtain ⟨hcases, hno⟩ := applyDeltaYes_books ob p d
  constructor
  · rcases hcases with h1 | ⟨x, h1⟩ | h1 <;> rw [h1]
    exacts [h.1, posKeys_insert h.1 hp, posKeys_erase h.1]
  · rw [hno]
    exact h.2

theorem applyDeltaNo_pos {ob : OrderBook} {p d : Int} (h : ObPos ob) (hp : 0 < p) :
    ObPos (applyDeltaNo ob p d) := by
  obtain ⟨hcases, hyes⟩ := applyDeltaNo_books ob p d
  constructor
  · rw [hyes]
    exact h.1
  · rcases hcases with h1 | ⟨x, h1⟩ | h1 <;> rw [h1]
    exacts [h.2, posKeys_insert h.2 hp, posKeys_erase h.2]

theorem applySnapshot_pos (ob : OrderBook) (seq : Int) {msg : OrderBookSnapshotMsg}
    (hy : ∀ pc ∈ msg.yes_dollars, 0 < pc.1) (hn : ∀ pc ∈ msg.no_dollars, 0 < pc.1) :
    ObPos (applySnapshot ob seq msg) := by
  exact ⟨posKeys_bookOfPairs hy, posKeys_bookOfPairs hn⟩

theorem obStep_pos {ob : OrderBook} {op : BookOp} (h : ObPos ob) (hp : opPricesPos op) :
    ObPos (obStep ob op) := by
  cases op with
  | snapshot seq msg => exact applySnapshot_pos ob seq hp.1 hp.2
  | delta seq m =>
    rcases m with ⟨side, p, d, ts⟩
    cases side
    · exact applyDeltaYes_pos h hp
    · exact applyDeltaNo_pos h hp

theorem obRun_pos_aux (ops : List BookOp) :
    ∀ ob, ObPos ob → (∀ op ∈ ops, opPricesPos op) →
      ObPos (ops.foldl obStep ob) := by
  induction ops with
  | nil => exact fun ob h _ => h
  | cons hd t ih =>
    intro ob h hall
    exact ih _ (obStep_pos h (hall hd (List.mem_cons_self hd t)))
      (fun op hop => hall op (List.mem_cons_of_mem hd hop))

theorem obRun_pos {ops : List BookOp} (h : ∀ op ∈ ops, opPricesPos op) :
    ObPos (obRun ops) :=
  obRun_pos_aux ops OrderBook.init
    ⟨fun y hy => absurd hy (List.not_mem_nil y), fun y hy => absurd hy (List.not_mem_nil y)⟩ h

theorem opPricesPos_delta {op : BookOp} (h : opPricesPos op) : deltaPricePos op := by
  cases op with
  | snapshot seq msg => trivial
  | delta seq m => exact h

theorem yes_best_of_inv {ob : OrderBook} (h : ObInv ob) (hne : ob.yes_book ≠ []) :
    (ob.best_bid, ob.bid_size) ∈ ob.yes_book ∧ ∀ pc ∈ ob.yes_book, pc.1 ≤ ob.best_bid := by
  obtain ⟨hsy, _, hyi, _⟩ := h
  rcases hb : ob.yes_book with _ | ⟨⟨k, v⟩, t⟩
  · exact absurd hb hne
  · have hbb : ob.best_bid = k := (hyi.2 k v t hb).1
    have hbs : ob.bid_size = v := (hyi.2 k v t hb).2
    constructor
    · rw [hbb, hbs]
      exact List.mem_cons_self _ _
    · intro pc hpc
      rcases List.mem_cons.mp hpc with hpc | hpc
      · rw [hpc, hbb]
      · have := sorted_head_bound (hb ▸ hsy) pc hpc
        omega

theorem no_best_of_inv {ob : OrderBook} (h : ObInv ob) (hne : ob.no_book ≠ []) :
    (10000 - ob.best_ask, ob.ask_size) ∈ ob.no_book ∧
      ∀ pc ∈ ob.no_book, pc.1 ≤ 10000 - ob.best_ask := by
  obtain ⟨_, hsn, _, hni⟩ := h
  rcases hb : ob.no_book with _ | ⟨⟨k, v⟩, t⟩
  · exact absurd hb hne
  · have hba : ob.best_ask = 10000 - k := (hni.2 k v t hb).1
    have has : ob.ask_size = v := (hni.2 k v t hb).2
    have hkey : 10000 - ob.best_ask = k := by omega
    constructor
    · rw [hkey, has]
      exact List.mem_cons_self _ _
    · intro pc hpc
      rcases List.mem_cons.mp hpc with hpc | hpc
      · rw [hpc, hkey]
      · have := sorted_head_bound (hb ▸ hsn) pc hpc
        omega

theorem obStep_mid (ob : OrderBook) (op : BookOp) :
    (obStep ob op).mid_price = calcMidPrice (obStep ob op) ∧
      (obStep ob op).bid_ask_spread = spreadFn (obStep ob op) := by
  cases op <;> exact ⟨rfl, rfl⟩

theorem obRun_mid (ops : List BookOp) : (obRun ops).mid_price = calcMidPrice (obRun ops) := by
  rcases List.eq_nil_or_concat ops with h | ⟨L, b, h⟩
  · rw [h]; rfl
  · rw [h]
    unfold obRun
    rw [List.concat_eq_append, List.foldl_append]
    exact (obStep_mid _ b).1

theorem obRun_cached_spread (ops : List BookOp) :
    ops = [] ∨ (obRun ops).bid_ask_spread = spreadFn (obRun ops) := by
  rcases List.eq_nil_or_concat ops with h | ⟨L, b, h⟩
  · exact Or.inl h
  · refine Or.inr ?_
    rw [h]
    unfold obRun
    rw [List.concat_eq_append, List.foldl_append]
    exact (obStep_mid _ b).2

/-! ## FixedPointDollars arithmetic lemmas -/

theorem ratQuantDown_intCast (n : Int) : ratQuantDown (n : ℚ) = n := by
  unfold ratQuantDown
  by_cases h : (0 : ℚ) ≤ (n : ℚ)
  · rw [if_pos h, Int.floor_intCast]
  · rw [if_neg h, Int.ceil_intCast]

theorem fpOfRat_units (n : Int) : fpOfRat ((n : ℚ) / 10000) = n := by
  unfold fpOfRat
  rw [div_mul_cancel₀ _ (by norm_num : (10000 : ℚ) ≠ 0)]
  exact ratQuantDown_intCast n

theorem fpComplement_eq (n : Int) : fpComplement n = 10000 - n := by
  unfold fpComplement fpToRat
  have h : (1 : ℚ) - (n : ℚ) / 10000 = ((10000 - n : Int) : ℚ) / 10000 := by
    push_cast
    ring
  rw [h, fpOfRat_units]

theorem fpAdd_eq (a b : Int) : fpAdd a b = a + b := by
  unfold fpAdd fpToRat
  have h : (a : ℚ) / 10000 + (b : ℚ) / 10000 = ((a + b : Int) : ℚ) / 10000 := by
    push_cast
    ring
  rw [h, fpOfRat_units]

/-! ## Executor lemmas -/

theorem update_inv_on_fill_inventory (s : ExecState) (f : FillMsg) :
    ((update_inv_on_fill s f).1).inventory = f.post_position := by
  unfold update_inv_on_fill
  dsimp only
  rcases dLookup s.resting_orders f.order_id with _ | r <;> dsimp only <;> split_ifs <;> rfl

/-! ## Claim theorems -/

/-- C1: with `max_inventory = 50` and inventory 48, handling a fill with
`post_position = 52` does raise `PositionLimitExceeded` — but the exception
is swallowed by the generic `except Exception` handler in
`KalshiWebsocket.run`, so nothing surfaces to the session runner from the
websocket task, and `_close_position` itself (with the remote position also
52) re-raises `PositionLimitExceeded` from `_sync_inventory` before any
market order is built: no market sell-YES of size 52 is ever placed,
contrary to the claim. -/
theorem claim_C1_code_eval :
    (update_inv_on_fill c1State c1Fill).2 = some RiskErr.PositionLimitExceeded ∧
    ((update_inv_on_fill c1State c1Fill).1).inventory = 52 ∧
    (wsRunLoopHandle c1State c1Fill).2 = none ∧
    (closePosition ((update_inv_on_fill c1State c1Fill).1) [] [] [] [("T", 52)] "T").1.2 =
      some RiskErr.PositionLimitExceeded ∧
    (closePosition ((update_inv_on_fill c1State c1Fill).1) [] [] [] [("T", 52)] "T").2 = none := by
  refine ⟨by decide, by decide, by decide, by decide, by decide⟩

/-- C2 counterexample: in the placement-race scenario of the claim
(buy YES 10, a racing fill of 4 with `post_position = 4`, placement response
`remaining_count = 6`), `_place_batch_order` sets
`resting_orders["o1"] = remaining_count − unregistered = 6 − 4 = 2`, not 6
as the claim states. -/
theorem claim_C2_counterexample :
    dLookup (placeBatchOrderWithFills c2State
        [{ side := Side.yes, action := OrderAction.buy, count := 10, yes_price_dollars := 4000 }]
        [{ order_id := "o1", count := 4, post_position := 4, ts := 1 }]
        [{ order_id := "o1", remaining_count := 6 }]).resting_orders "o1" ≠ some 6 := by
  decide

/-- C2 amended: in the same scenario the executor ends with
`resting_orders = {"o1": 2}` (the returned `remaining_count` 6 minus the 4
contracts accumulated in `unregistered_fills`), `unregistered_fills = {}`,
and `inventory = 4`. -/
theorem claim_C2_amended :
    (placeBatchOrderWithFills c2State
        [{ side := Side.yes, action := OrderAction.buy, count := 10, yes_price_dollars := 4000 }]
        [{ order_id := "o1", count := 4, post_position := 4, ts := 1 }]
        [{ order_id := "o1", remaining_count := 6 }]).resting_orders = [("o1", 2)] ∧
    (placeBatchOrderWithFills c2State
        [{ side := Side.yes, action := OrderAction.buy, count := 10, yes_price_dollars := 4000 }]
        [{ order_id := "o1", count := 4, post_position := 4, ts := 1 }]
        [{ order_id := "o1", remaining_count := 6 }]).unregistered_fills = [] ∧
    (placeBatchOrderWithFills c2State
        [{ side := Side.yes, action := OrderAction.buy, count := 10, yes_price_dollars := 4000 }]
        [{ order_id := "o1", count := 4, post_position := 4, ts := 1 }]
        [{ order_id := "o1", remaining_count := 6 }]).inventory = 4 := by
  refine ⟨by decide, by decide, by decide⟩

/-- C6: `reconcile` syncs orders, then balance, then inventory; the balance
deviation (remote 50 dollars vs local 0, `max_balance_dev = 10`) is logged as
a mismatch, but although the inventory deviation (remote 50 vs local 0)
exceeds `max_inventory_dev = 5`, `_sync_inventory` performs no deviation
check, so no position-mismatch event is ever logged — contrary to the claim
and to `_sync_inventory`'s own docstring. -/
theorem claim_C6_code_eval :
    (reconcile c6State [] 5000 [("T", 50)] "T").2 = [LogEvent.balanceMismatchLog] ∧
    (reconcile c6State [] 5000 [("T", 50)] "T").1.2 = none ∧
    ((reconcile c6State [] 5000 [("T", 50)] "T").1.1).inventory = 50 ∧
    (5 : Int) < |(50 : Int) - 0| ∧
    LogEvent.positionMismatchLog ∉ (reconcile c6State [] 5000 [("T", 50)] "T").2 := by
  unfold reconcile syncOrders syncBalance syncInventory c6State
  norm_num
  all_goals decide

/-- C7: `constrain_order` replaces the order's count by
`max(0, min(count, max_delta))` where `max_delta = max_inventory − inventory`
for a long order (buy YES or sell NO) and `inventory + max_inventory` for a
short one; in particular a buy-YES order of size 100 with
`inventory = max_inventory − 3` is clamped to size 3. -/
theorem claim_C7 :
    (∀ (s : ExecState) (o : Order),
      (constrain_order s o).count =
        max 0 (min o.count
          (if (o.action = OrderAction.buy ∧ o.side = Side.yes) ∨
              (o.action = OrderAction.sell ∧ o.side = Side.no)
            then s.max_inventory - s.inventory else s.inventory + s.max_inventory))) ∧
    (∀ (s : ExecState) (o : Order),
      s.inventory = s.max_inventory - 3 → o.action = OrderAction.buy → o.side = Side.yes →
        o.count = 100 → (constrain_order s o).count = 3) := by
  constructor
  · intro s o
    unfold constrain_order
    rw [min_comm]
  · intro s o hinv hact hside hcount
    simp [constrain_order, hact, hside, hcount, hinv]

/-- C7 witness: a buy-YES order of size 100 with inventory 47 and
`max_inventory = 50` is clamped to size 3. -/
theorem claim_C7_witness :
    (constrain_order
      { inventory := 47, max_inventory := 50, balance := 0, minimum_balance := 0
        max_inventory_dev := 0, max_balance_dev := 0, resting_orders := []
        unregistered_fills := [], last_fill_ts := 0 }
      { side := Side.yes, action := OrderAction.buy, count := 100,
        yes_price_dollars := 4000 }).count = 3 :=
  claim_C7.2 _ _ (by decide) rfl rfl rfl

/-- C8: after `update_inv_on_fill` the inventory equals the fill's
`post_position` (the assignment is unconditional), so handling the same fill
twice is idempotent on inventory. -/
theorem claim_C8 (s : ExecState) (f : FillMsg) :
    ((update_inv_on_fill s f).1).inventory = f.post_position ∧
    ((update_inv_on_fill ((update_inv_on_fill s f).1) f).1).inventory = f.post_position :=
  ⟨update_inv_on_fill_inventory s f, update_inv_on_fill_inventory _ f⟩

/-- C9: the 4-decimal quantized complement is an involution
(`FixedPrice(x).complement.complement = FixedPrice(x)` for every numeric
input `x`), and `a + a.complement = 1` for every fixed-point value `a`. -/
theorem claim_C9 :
    (∀ x : ℚ, fpComplement (fpComplement (fpOfRat x)) = fpOfRat x) ∧
    (∀ a : Int, fpAdd a (fpComplement a) = fpOne) := by
  constructor
  · intro x
    rw [fpComplement_eq, fpComplement_eq]
    omega
  · intro a
    rw [fpComplement_eq, fpAdd_eq]
    unfold fpOne
    omega

/-- C3: (i) a delta envelope arriving while the flag is clear and the book's
`seq_n` is set to `sp` with `seq ≠ sp + 1` leaves the market untouched, sets
`pending_snapshot`, and invokes the gap callback; (ii) while
`pending_snapshot` is set every delta envelope is discarded entirely;
(iii) a snapshot envelope clears the flag (resuming delta ingestion);
(iv) after a gap, a whole stretch of delta envelopes with no intervening
snapshot leaves the state unchanged. -/
theorem claim_C3 :
    (∀ (s : WSState) (seq : Int) (msg : OrderBookDeltaMsg) (sp : Int),
      s.pending_snapshot = false → s.orderbook.seq_n = some sp → seq ≠ sp + 1 →
        wsStep s (Env.delta seq msg) = ({ s with pending_snapshot := true }, true)) ∧
    (∀ (s : WSState) (seq : Int) (msg : OrderBookDeltaMsg),
      s.pending_snapshot = true → wsStep s (Env.delta seq msg) = (s, false)) ∧
    (∀ (s : WSState) (seq : Int) (msg : OrderBookSnapshotMsg),
      (wsStep s (Env.snapshot seq msg)).1.pending_snapshot = false) ∧
    (∀ (s : WSState) (es : List Env), s.pending_snapshot = true →
      (∀ e ∈ es, ∃ seq msg, e = Env.delta seq msg) → wsRun s es = s) := by
  have hdrop : ∀ (s : WSState) (seq : Int) (msg : OrderBookDeltaMsg),
      s.pending_snapshot = true → wsStep s (Env.delta seq msg) = (s, false) := by
    intro s seq msg hpend
    simp [wsStep, hpend]
  refine ⟨?_, hdrop, ?_, ?_⟩
  · intro s seq msg sp hpend hseq hne
    simp [wsStep, hpend, hseq, hne]
  · intro s seq msg
    rfl
  · intro s es
    revert s
    induction es with
    | nil => intro s _ _; rfl
    | cons e t ih =>
      intro s hpend hall
      obtain ⟨seq, msg, he⟩ := hall e (List.mem_cons_self e t)
      subst he
      unfold wsRun
      rw [List.foldl_cons, hdrop s seq msg hpend]
      exact ih s hpend (fun e' he' => hall e' (List.mem_cons_of_mem _ he'))

/-- C3 witness: in a live state with `seq_n = 10`, a delta with `seq = 13`
is rejected with the gap callback invoked and the flag set, and two further
deltas are then discarded without touching the state. -/
theorem claim_C3_witness :
    wsStep c3WS (Env.delta 13 c3Delta) = ({ c3WS with pending_snapshot := true }, true) ∧
    wsRun { c3WS with pending_snapshot := true }
        [Env.delta 14 c3Delta, Env.delta 11 c3Delta] =
      { c3WS with pending_snapshot := true } := by
  constructor
  · exact claim_C3.1 c3WS 13 c3Delta 10 rfl rfl (by decide)
  · refine claim_C3.2.2.2 _ _ rfl ?_
    intro e he
    rcases List.mem_cons.mp he with he | he
    · exact ⟨14, c3Delta, he⟩
    · rw [List.mem_singleton] at he
      exact ⟨11, c3Delta, he⟩

/-- C4 counterexample: applying a single delta at YES price 0.00 (a legal
`FixedPrice` per the data model) of size 5 to a fresh book leaves
`yes_levels = {0.00: 5}` nonempty while the cached `bid_size` stays 0: the
cached pair (best_bid, bid_size) = (0, 0) is not a level of the book, so
`bid_size` does not equal the count stored at the maximal key. -/
theorem claim_C4_counterexample :
    (obStep OrderBook.init
        (BookOp.delta 1 { side := Side.yes, price_dollars := 0, delta := 5, ts := 0 })).yes_book =
      [(0, 5)] ∧
    ((obStep OrderBook.init
        (BookOp.delta 1 { side := Side.yes, price_dollars := 0, delta := 5, ts := 0 })).best_bid,
      (obStep OrderBook.init
        (BookOp.delta 1 { side := Side.yes, price_dollars := 0, delta := 5, ts := 0 })).bid_size) ∉
      (obStep OrderBook.init
        (BookOp.delta 1 { side := Side.yes, price_dollars := 0, delta := 5, ts := 0 })).yes_book := by
  refine ⟨by decide, by decide⟩

/-- C4 amended: after every sequence of snapshot/delta operations whose
delta prices are positive, a nonempty YES side caches `best_bid` as its
maximal key with `bid_size` the count stored there, and a nonempty NO side
caches `best_ask` as the complement of its maximal key with `ask_size` that
level's count. -/
theorem claim_C4_amended (ops : List BookOp) (h : ∀ op ∈ ops, deltaPricePos op) :
    ((obRun ops).yes_book ≠ [] →
      ((obRun ops).best_bid, (obRun ops).bid_size) ∈ (obRun ops).yes_book ∧
        ∀ pc ∈ (obRun ops).yes_book, pc.1 ≤ (obRun ops).best_bid) ∧
    ((obRun ops).no_book ≠ [] →
      (10000 - (obRun ops).best_ask, (obRun ops).ask_size) ∈ (obRun ops).no_book ∧
        ∀ pc ∈ (obRun ops).no_book, pc.1 ≤ 10000 - (obRun ops).best_ask) := by
  have hinv := obRun_inv h
  exact ⟨yes_best_of_inv hinv, no_best_of_inv hinv⟩

/-- C4 witness: the spec's snapshot-plus-delta scenario satisfies the
invariant's conclusion. -/
theorem claim_C4_witness :
    ((obRun c4Ops).yes_book ≠ [] →
      ((obRun c4Ops).best_bid, (obRun c4Ops).bid_size) ∈ (obRun c4Ops).yes_book ∧
        ∀ pc ∈ (obRun c4Ops).yes_book, pc.1 ≤ (obRun c4Ops).best_bid) ∧
    ((obRun c4Ops).no_book ≠ [] →
      (10000 - (obRun c4Ops).best_ask, (obRun c4Ops).ask_size) ∈ (obRun c4Ops).no_book ∧
        ∀ pc ∈ (obRun c4Ops).no_book, pc.1 ≤ 10000 - (obRun c4Ops).best_ask) :=
  claim_C4_amended c4Ops (by decide)

/-- C5 counterexample: a reachable crossed book (snapshot with YES level
0.60 and NO level 0.50, so `best_bid = 0.60 > best_ask = 0.50`) has a
negative spread, and `best_bid ≤ mid_price` fails. -/
theorem claim_C5_counterexample :
    (obStep OrderBook.init
        (BookOp.snapshot 10 { yes_dollars := [(6000, 5)], no_dollars := [(5000, 5)] })).bid_ask_spread =
      -1000 ∧
    ¬(0 ≤ (obStep OrderBook.init
        (BookOp.snapshot 10 { yes_dollars := [(6000, 5)], no_dollars := [(5000, 5)] })).bid_ask_spread) ∧
    ¬((obStep OrderBook.init
        (BookOp.snapshot 10 { yes_dollars := [(6000, 5)], no_dollars := [(5000, 5)] })).best_bid ≤
      (obStep OrderBook.init
        (BookOp.snapshot 10 { yes_dollars := [(6000, 5)], no_dollars := [(5000, 5)] })).mid_price) := by
  refine ⟨by decide, by decide, by decide⟩

/-- C5 amended: for every state reached by operations whose prices are all
positive and whose resulting book is not crossed (`best_bid ≤ best_ask`):
the spread is nonnegative; when both sides are nonempty,
`best_bid ≤ mid_price ≤ best_ask` with `mid_price` the toward-zero-quantized
average of bid and ask; with only one side present `mid_price` is that
side's price; and with both sides empty it is 0.50. -/
theorem claim_C5_amended (ops : List BookOp) (hpos : ∀ op ∈ ops, opPricesPos op)
    (hunc : (obRun ops).best_bid ≤ (obRun ops).best_ask) :
    0 ≤ (obRun ops).bid_ask_spread ∧
    0 ≤ spreadFn (obRun ops) ∧
    ((obRun ops).yes_book ≠ [] → (obRun ops).no_book ≠ [] →
      (obRun ops).best_bid ≤ (obRun ops).mid_price ∧
        (obRun ops).mid_price ≤ (obRun ops).best_ask ∧
        (obRun ops).mid_price = fpHalfDown ((obRun ops).best_bid + (obRun ops).best_ask)) ∧
    ((obRun ops).yes_book ≠ [] → (obRun ops).no_book = [] →
      (obRun ops).mid_price = (obRun ops).best_bid) ∧
    ((obRun ops).yes_book = [] → (obRun ops).no_book ≠ [] →
      (obRun ops).mid_price = (obRun ops).best_ask) ∧
    ((obRun ops).yes_book = [] → (obRun ops).no_book = [] →
      (obRun ops).mid_price = 5000) := by
  have hinv := obRun_inv (fun op hop => opPricesPos_delta (hpos op hop))
  have hposk := obRun_pos hpos
  have hmid := obRun_mid ops
  have hbid_pos : (obRun ops).yes_book ≠ [] → 0 < (obRun ops).best_bid := by
    intro hne
    have hmem := (yes_best_of_inv hinv hne).1
    exact hposk.1 _ hmem
  have hask_lt : (obRun ops).no_book ≠ [] → (obRun ops).best_ask < 10000 := by
    intro hne
    have hmem := (no_best_of_inv hinv hne).1
    have := hposk.2 _ hmem
    simp at this
    omega
  have hbid_zero : (obRun ops).yes_book = [] → (obRun ops).best_bid = 0 :=
    fun h => (hinv.2.2.1.1 h).1
  have hask_full : (obRun ops).no_book = [] → (obRun ops).best_ask = 10000 :=
    fun h => (hinv.2.2.2.1 h).1
  refine ⟨?_, by unfold spreadFn; omega, ?_, ?_, ?_, ?_⟩
  · rcases obRun_cached_spread ops with h | h
    · rw [h]
      decide
    · rw [h]
      unfold spreadFn
      omega
  · intro hy hn
    have hb := hbid_pos hy
    have ha := hask_lt hn
    rw [hmid]
    unfold calcMidPrice
    rw [if_pos ⟨ha, hb⟩]
    unfold fpHalfDown
    rw [if_pos (by omega : (0 : Int) ≤ (obRun ops).best_bid + (obRun ops).best_ask)]
    refine ⟨by omega, by omega, rfl⟩
  · intro hy hn
    have hb := hbid_pos hy
    have ha := hask_full hn
    rw [hmid]
    unfold calcMidPrice
    rw [if_neg (by omega), if_neg (by omega), if_pos hb]
  · intro hy hn
    have hb := hbid_zero hy
    have ha := hask_lt hn
    rw [hmid]
    unfold calcMidPrice
    rw [if_neg (by omega), if_pos ha]
  · intro hy hn
    have hb := hbid_zero hy
    have ha := hask_full hn
    rw [hmid]
    unfold calcMidPrice
    rw [if_neg (by omega), if_neg (by omega), if_neg (by omega)]

/-- C5 witness: the spec's two-sided snapshot (best_bid 0.31, best_ask 0.32)
is uncrossed and satisfies the mid-price and spread conclusions. -/
theorem claim_C5_witness :
    0 ≤ (obRun c5Ops).bid_ask_spread ∧
    0 ≤ spreadFn (obRun c5Ops) ∧
    ((obRun c5Ops).yes_book ≠ [] → (obRun c5Ops).no_book ≠ [] →
      (obRun c5Ops).best_bid ≤ (obRun c5Ops).mid_price ∧
        (obRun c5Ops).mid_price ≤ (obRun c5Ops).best_ask ∧
        (obRun c5Ops).mid_price = fpHalfDown ((obRun c5Ops).best_bid + (obRun c5Ops).best_ask)) ∧
    ((obRun c5Ops).yes_book ≠ [] → (obRun c5Ops).no_book = [] →
      (obRun c5Ops).mid_price = (obRun c5Ops).best_bid) ∧
    ((obRun c5Ops).yes_book = [] → (obRun c5Ops).no_book ≠ [] →
      (obRun c5Ops).mid_price = (obRun c5Ops).best_ask) ∧
    ((obRun c5Ops).yes_book = [] → (obRun c5Ops).no_book = [] →
      (obRun c5Ops).mid_price = 5000) :=
  claim_C5_amended c5Ops (by decide) (by decide)

/-! ## PriceBuffer correctness -/

theorem pbEmpty_rep {α : Type} (cap : Nat) (h : 0 < cap) :
    PBRep cap [] (PriceBuffer.empty α cap) := by
  refine ⟨rfl, List.length_replicate cap none, h, by simp [PriceBuffer.empty], ?_⟩
  intro i hi
  simp [PriceBuffer.empty] at hi

theorem pbAdd_rep {α : Type} {cap : Nat} {xs : List α} {b : PriceBuffer α}
    (hcap : 0 < cap) (h : PBRep cap xs b) (x : α) : PBRep cap (xs ++ [x]) (b.add x) := by
  obtain ⟨hc, hlen, hhead, hsize, hcontent⟩ := h
  subst hc
  have hsz_le : b.size ≤ xs.length := by omega
  unfold PriceBuffer.add
  dsimp only
  by_cases hfull : b.size < b.capacity
  · rw [if_pos hfull]
    refine ⟨rfl, by rw [List.length_set]; exact hlen, hhead, ?_, ?_⟩
    · rw [List.length_append]
      simp only [List.length_singleton]
      omega
    · intro i hi
      dsimp only at hi ⊢
      have hidx : (xs ++ [x]).length - (b.size + 1) + i = xs.length - b.size + i := by
        rw [List.length_append]
        simp only [List.length_singleton]
        omega
      rw [hidx]
      rcases Nat.lt_succ_iff_lt_or_eq.mp hi with hlt | heq
      · -- an old cell, untouched by the write
        have hne : (b.head + b.size) % b.capacity ≠ (b.head + i) % b.capacity := by
          intro hmod
          have h1 : Nat.ModEq b.capacity b.size i := Nat.ModEq.add_left_cancel' b.head hmod
          have : b.size = i := by
            have := h1
            unfold Nat.ModEq at this
            rwa [Nat.mod_eq_of_lt hfull, Nat.mod_eq_of_lt (lt_trans hlt hfull)] at this
          omega
        rw [List.getElem?_set_ne hne, hcontent i hlt,
          List.getElem?_append_left (by omega : xs.length - b.size + i < xs.length)]
      · -- the freshly written cell holds the new element
        subst heq
        rw [List.getElem?_set_self (by rw [hlen]; exact Nat.mod_lt _ hcap)]
        have : xs.length - b.size + b.size = xs.length := by omega
        rw [this, List.getElem?_concat_length]
  · rw [if_neg hfull]
    have hfull' : b.size = b.capacity := by omega
    have hlen_ge : b.capacity ≤ xs.length := by omega
    have hset_idx : (b.head + b.size) % b.capacity = b.head := by
      rw [hfull', Nat.add_mod_right]
      exact Nat.mod_eq_of_lt hhead
    refine ⟨rfl, by rw [List.length_set]; exact hlen, Nat.mod_lt _ hcap, ?_, ?_⟩
    · rw [List.length_append]
      simp only [List.length_singleton]
      omega
    · intro i hi
      dsimp only at hi ⊢
      rw [hset_idx]
      have hmod : ((b.head + 1) % b.capacity + i) % b.capacity =
          (b.head + (i + 1)) % b.capacity := by
        rw [Nat.mod_add_mod]
        congr 1
        omega
      rw [hmod]
      have hidx : (xs ++ [x]).length - b.size + i = xs.length - b.size + i + 1 := by
        rw [List.length_append]
        simp only [List.length_singleton]
        omega
      rw [hidx]
      by_cases hlast : i + 1 < b.capacity
      · -- an old cell, shifted one slot toward the head
        have hne : b.head ≠ (b.head + (i + 1)) % b.capacity := by
          intro hmod2
          have hm0 : (b.head + 0) % b.capacity = (b.head + (i + 1)) % b.capacity := by
            rw [Nat.add_zero, Nat.mod_eq_of_lt hhead]
            exact hmod2
          have h1 : Nat.ModEq b.capacity 0 (i + 1) := Nat.ModEq.add_left_cancel' b.head hm0
          unfold Nat.ModEq at h1
          rw [Nat.mod_eq_of_lt hcap, Nat.mod_eq_of_lt hlast] at h1
          omega
        rw [List.getElem?_set_ne hne, hcontent (i + 1) (by omega)]
        have hBA : xs.length - b.size + i + 1 = xs.length - b.size + (i + 1) := by omega
        rw [hBA, List.getElem?_append_left (by omega : xs.length - b.size + (i + 1) < xs.length)]
      · -- the oldest cell was overwritten by the new element
        have hilast : i + 1 = b.capacity := by omega
        have : (b.head + (i + 1)) % b.capacity = b.head := by
          rw [hilast, Nat.add_mod_right]
          exact Nat.mod_eq_of_lt hhead
        rw [this, List.getElem?_set_self (by rw [hlen]; exact hhead)]
        have : xs.length - b.size + i + 1 = xs.length := by omega
        rw [this, List.getElem?_concat_length]

theorem pbBuild_rep {α : Type} (cap : Nat) (h : 0 < cap) (xs : List α) :
    PBRep cap xs (pbBuild α cap xs) := by
  induction xs using List.reverseRecOn with
  | nil => exact pbEmpty_rep cap h
  | append_singleton L x ih =>
    have hb : pbBuild α cap (L ++ [x]) = (pbBuild α cap L).add x := by
      unfold pbBuild
      rw [List.foldl_append]
      rfl
    rw [hb]
    exact pbAdd_rep h ih x

theorem pb_getItem_rep {α : Type} {cap : Nat} {xs : List α} {b : PriceBuffer α}
    (h : PBRep cap xs b) {i : Nat} (hi : i < b.size) :
    b.getItem i = xs[xs.length - b.size + i]? := by
  obtain ⟨hc, hlen, hhead, hsize, hcontent⟩ := h
  unfold PriceBuffer.getItem
  rw [if_pos hi, List.getD_eq_getElem?_getD, hc, hcontent i hi]
  rfl

theorem pb_getLastN_rep {α : Type} {cap : Nat} {xs : List α} {b : PriceBuffer α}
    (h : PBRep cap xs b) (n : Nat) :
    b.getLastN n = (xs.drop (xs.length - min n b.size)).map some := by
  have hsz_le : b.size ≤ xs.length := by have := h.2.2.2.1; omega
  have hm_le : min n b.size ≤ b.size := Nat.min_le_right n b.size
  unfold PriceBuffer.getLastN
  dsimp only
  apply List.ext_getElem?
  intro j
  rw [List.getElem?_map, List.getElem?_map]
  by_cases hj : j < min n b.size
  · rw [List.getElem?_range' _ _ hj, List.getElem?_drop]
    have hget := pb_getItem_rep h (i := b.size - min n b.size + 1 * j)
      (by omega : b.size - min n b.size + 1 * j < b.size)
    rw [Option.map_some', hget]
    have hidx : xs.length - b.size + (b.size - min n b.size + 1 * j) =
        xs.length - min n b.size + j := by omega
    rw [hidx]
    have hlt : xs.length - min n b.size + j < xs.length := by omega
    rw [List.getElem?_eq_getElem hlt]
    rfl
  · rw [List.getElem?_eq_none (by rw [List.length_range']; omega),
      List.getElem?_eq_none (by rw [List.length_drop]; omega)]
    rfl

/-- C10: the price buffer built by pushing `xs` into a fresh buffer of
positive capacity `cap` has `size = min |xs| cap` (so `0 ≤ len ≤ capacity`
always holds); `get_last_n n` returns exactly the `min n len` most recently
added elements in insertion order; and an `add` on a full buffer keeps the
size at capacity while advancing the head, overwriting the oldest
element. -/
theorem claim_C10 {α : Type} (cap : Nat) (xs : List α) (h : 0 < cap) :
    (pbBuild α cap xs).size = min xs.length cap ∧
    (pbBuild α cap xs).size ≤ cap ∧
    (∀ n, (pbBuild α cap xs).getLastN n =
      (xs.drop (xs.length - min n (pbBuild α cap xs).size)).map some) ∧
    (∀ x : α, cap ≤ xs.length →
      ((pbBuild α cap xs).add x).head = ((pbBuild α cap xs).head + 1) % cap ∧
        ((pbBuild α cap xs).add x).size = cap) := by
  have hrep := pbBuild_rep cap h xs
  refine ⟨hrep.2.2.2.1, by have := hrep.2.2.2.1; omega,
    fun n => pb_getLastN_rep hrep n, ?_⟩
  intro x hx
  have hsize : (pbBuild α cap xs).size = cap := by have := hrep.2.2.2.1; omega
  have hcap' : (pbBuild α cap xs).capacity = cap := hrep.1
  unfold PriceBuffer.add
  dsimp only
  rw [if_neg (by omega : ¬(pbBuild α cap xs).size < (pbBuild α cap xs).capacity)]
  exact ⟨by rw [hcap'], hsize⟩

/-- C10 witness: capacity 2, pushes 10, 20, 30: the buffer holds the last
two elements in order and a further push advances the head. -/
theorem claim_C10_witness :
    (pbBuild Int 2 [10, 20, 30]).size = min ([10, 20, 30] : List Int).length 2 ∧
    (pbBuild Int 2 [10, 20, 30]).getLastN 5 =
      (([10, 20, 30] : List Int).drop
        (([10, 20, 30] : List Int).length - min 5 (pbBuild Int 2 [10, 20, 30]).size)).map some ∧
    ((pbBuild Int 2 [10, 20, 30]).add 40).head = ((pbBuild Int 2 [10, 20, 30]).head + 1) % 2 :=
  ⟨(claim_C10 2 [10, 20, 30] (by decide)).1,
    (claim_C10 2 [10, 20, 30] (by decide)).2.2.1 5,
    ((claim_C10 2 [10, 20, 30] (by decide)).2.2.2 40 (by decide)).1⟩

end KalshiSpec
